import Mathlib

/-!
Verification development for the deltafs PLFS-IO write path and metadata
client permission checks.

The `DoubleBuffering` section is a shallow embedding of the per-partition
double-buffered compaction coordinator (`class DoubleBuffering` and its
template methods `__Add`, `__Flush`, `__Sync`, `__Finish`, `Prepare`,
`TryScheduleCompaction`, `DoCompaction`).  The CRTP type parameter `T`
(providing `AddToBuffer`, `HasRoom`, `IsEmpty`, `Compact`,
`ScheduleCompaction`, `SyncBackend`, `Clear`) is embedded as a record of
capability functions `BufOps`.  Buffers live in a heap `store : Nat → Buf`
addressed by ids, mirroring the `void*` pointers of the source
(`membuf_`, the `bufs_` deque and the pool submission queue all hold ids).
The concurrent execution is sequentialized: a `bg_cv_->Wait()` in the
foreground is modelled as the pool running the oldest submitted compaction
(per-partition FIFO submission), after which the waiter re-checks its loop
condition.  Recursion through the condition-variable loops is bounded by
explicit fuel; `none` models divergence / blocking forever.
-/

namespace DeltafsProof

abbrev Bytes := List Nat

/-- Status values, mirroring `pdlfs::Status` as used by this code:
`OK`, `AssertionFailed(msg, detail)` (used by `__Finish` to pin
"Already finished"), and I/O style errors produced by compactions or
backend syncs. -/
inductive Status where
  | ok : Status
  | assertionFailed : String → String → Status
  | ioError : String → Status
  | corruption : String → Status
deriving DecidableEq, Repr

def Status.isOk : Status → Bool
  | .ok => true
  | _ => false

def Status.toStr : Status → String
  | .ok => "OK"
  | .assertionFailed m d => "Assertion failed: " ++ m ++ ": " ++ d
  | .ioError m => "IO error: " ++ m
  | .corruption m => "Corruption: " ++ m

/-- The capability interface supplied by the CRTP parameter `T` of
`DoubleBuffering`: type-specific buffer operations and the storage
backend primitives. `compact b` is the status of compacting buffer
contents `b`; `syncBackend close` the status of the backend sync. -/
structure BufOps (Buf : Type) where
  addToBuffer : Buf → Bytes → Bytes → Buf
  hasRoom : Buf → Bytes → Bytes → Bool
  isEmpty : Buf → Bool
  compact : Buf → Status
  clear : Buf → Buf
  syncBackend : Bool → Status

/-- The mutex-protected state of one partition's `DoubleBuffering`:
`store` is the heap of buffers (ids play the role of the `void*`
pointers), `membuf` the id of the active write buffer (`membuf_`),
`bufs` the spare-buffer deque (`bufs_`), and `pending` the FIFO queue of
compactions submitted to the external thread pool and not yet executed.
The counters `numScheduled`, `numCompleted` and `numBg` are the stored
values of the source's `uint32_t` fields: naturals kept below `2^32`,
updated only by increments and decrements that wrap modulo `2^32`. -/
structure DBState (Buf : Type) where
  store : Nat → Buf
  membuf : Nat
  bufs : List Nat
  pending : List Nat
  numScheduled : Nat
  numCompleted : Nat
  numBg : Nat
  bgStatus : Status
  finished : Bool

namespace DoubleBuffering

variable {Buf : Type}

/-- The non-recursive prefix of `DoCompaction(immbuf)`: run `Compact`,
increment `num_compac_completed_`, latch the resulting status into
`bg_status_`, `Clear` the buffer, `push_back` it onto `bufs_`, and
decrement `num_bg_compactions_` (the trailing opportunistic
`Prepare(force=false)` is applied by the callers). -/
def completeOne (ops : BufOps Buf) (s : DBState Buf) (b : Nat) : DBState Buf :=
  let st := ops.compact (s.store b)
  { s with
    numCompleted := (s.numCompleted + 1) % 2 ^ 32
    bgStatus := st
    store := fun i => if i = b then ops.clear (s.store b) else s.store i
    bufs := s.bufs ++ [b]
    numBg := (s.numBg + (2 ^ 32 - 1)) % 2 ^ 32 }

/-- Embeds `DoubleBuffering::Prepare(seq, force, k, v)` — the scheduling loop.
Returns `(status, *compac_seq, state)`.  The `bufs_.empty()` branch is the
`bg_cv_->Wait()`: the pool executes the oldest pending compaction (whose
body is `completeOne` followed by the opportunistic `Prepare(force=false)`
of `DoCompaction`), then the loop re-runs.  The non-empty branch is
`TryScheduleCompaction(seq, membuf_)` (inlined here so that the recursion
is structural on the fuel) followed by `membuf_ = bufs_.back();
bufs_.pop_back()`. -/
def Prepare (ops : BufOps Buf) :
    Nat → DBState Buf → Bool → Bytes → Bytes → Nat → Option (Status × Nat × DBState Buf)
  | 0, _, _, _, _, _ => none
  | fuel + 1, s, force, k, v, seq =>
    if !s.bgStatus.isOk then
      some (s.bgStatus, seq, s)
    else if !force && ops.hasRoom (s.store s.membuf) k v then
      some (.ok, seq, s)
    else if s.bufs.isEmpty then
      match s.pending with
      | [] => none
      | b :: rest =>
        match Prepare ops fuel (completeOne ops { s with pending := rest } b) false [] [] 0 with
        | none => none
        | some (_, _, s1) => Prepare ops fuel s1 force k v seq
    else
      match (if ops.isEmpty (s.store s.membuf) then
               match Prepare ops fuel
                   (completeOne ops
                     { s with numScheduled := (s.numScheduled + 1) % 2 ^ 32,
                              numBg := (s.numBg + 1) % 2 ^ 32 }
                     s.membuf) false [] [] 0 with
               | none => none
               | some (_, _, t) => some t
             else
               some { s with numScheduled := (s.numScheduled + 1) % 2 ^ 32,
                             numBg := (s.numBg + 1) % 2 ^ 32,
                             pending := s.pending ++ [s.membuf] }) with
      | none => none
      | some s2 =>
        match s2.bufs.getLast? with
        | none => none
        | some nb =>
          Prepare ops fuel { s2 with membuf := nb, bufs := s2.bufs.dropLast } false k v
            ((s.numScheduled + 1) % 2 ^ 32)

/-- Embeds `DoubleBuffering::DoCompaction(immbuf)`: the compaction body followed by
the opportunistic `Prepare(force=false)` that tries to launch another
compaction, and `bg_cv_->SignalAll()`. -/
def DoCompaction (ops : BufOps Buf) (fuel : Nat) (s : DBState Buf) (immbuf : Nat) :
    Option (DBState Buf) :=
  match Prepare ops fuel (completeOne ops s immbuf) false [] [] 0 with
  | none => none
  | some (_, _, t) => some t

/-- Embeds `DoubleBuffering::TryScheduleCompaction(compac_seq, immbuf)`: assign
`*compac_seq = ++num_compac_scheduled_`, bump `num_bg_compactions_`, then
either execute `DoCompaction` directly in the calling thread (buffer
empty) or submit the buffer to the external thread pool
(`ScheduleCompaction`, FIFO). -/
def TryScheduleCompaction (ops : BufOps Buf) (fuel : Nat) (s : DBState Buf) (immbuf : Nat) :
    Option (Nat × DBState Buf) :=
  if ops.isEmpty (s.store immbuf) then
    match DoCompaction ops fuel
        { s with numScheduled := (s.numScheduled + 1) % 2 ^ 32,
                 numBg := (s.numBg + 1) % 2 ^ 32 } immbuf with
    | none => none
    | some t => some ((s.numScheduled + 1) % 2 ^ 32, t)
  else
    some ((s.numScheduled + 1) % 2 ^ 32,
      { s with numScheduled := (s.numScheduled + 1) % 2 ^ 32,
               numBg := (s.numBg + 1) % 2 ^ 32,
               pending := s.pending ++ [immbuf] })

/-- Modelled from the spec: the body of `DoubleBuffering::WaitFor(compac_seq)`
is not among the sources; per the spec and the call-site comments it blocks
until `num_compac_completed_ >= compac_seq`.  Waiting is modelled as the
pool executing the oldest pending compaction. -/
def WaitFor (ops : BufOps Buf) : Nat → DBState Buf → Nat → Option (DBState Buf)
  | 0, _, _ => none
  | fuel + 1, s, seq =>
    if seq ≤ s.numCompleted then some s
    else
      match s.pending with
      | [] => none
      | b :: rest =>
        match DoCompaction ops fuel { s with pending := rest } b with
        | none => none
        | some s1 => WaitFor ops fuel s1 seq

/-- Modelled from the spec: the body of
`DoubleBuffering::WaitForCompactions()` is not among the sources; per the
spec it blocks until there is no outstanding compaction
(`num_bg_compactions_ == 0`). -/
def WaitForCompactions (ops : BufOps Buf) : Nat → DBState Buf → Option (DBState Buf)
  | 0, _ => none
  | fuel + 1, s =>
    if s.numBg = 0 then some s
    else
      match s.pending with
      | [] => none
      | b :: rest =>
        match DoCompaction ops fuel { s with pending := rest } b with
        | none => none
        | some s1 => WaitForCompactions ops fuel s1

/-- Embeds `DoubleBuffering::__Add(k, v)`. -/
def Add (ops : BufOps Buf) (fuel : Nat) (s : DBState Buf) (k v : Bytes) :
    Option (Status × DBState Buf) :=
  if s.finished then some (s.bgStatus, s)
  else
    match Prepare ops fuel s false k v 0 with
    | none => none
    | some (st, _, s1) =>
      if st.isOk then
        some (st, { s1 with
          store := fun i =>
            if i = s1.membuf then ops.addToBuffer (s1.store s1.membuf) k v else s1.store i })
      else some (st, s1)

/-- Embeds `DoubleBuffering::__Flush(wait)`. -/
def Flush (ops : BufOps Buf) (fuel : Nat) (s : DBState Buf) (wait : Bool) :
    Option (Status × DBState Buf) :=
  if s.finished then some (s.bgStatus, s)
  else
    match Prepare ops fuel s true [] [] 0 with
    | none => none
    | some (st, seq, s1) =>
      if st.isOk && wait then
        match WaitFor ops fuel s1 seq with
        | none => none
        | some s2 => some (s2.bgStatus, s2)
      else some (st, s1)

/-- Embeds `DoubleBuffering::__Sync(flush)`. -/
def Sync (ops : BufOps Buf) (fuel : Nat) (s : DBState Buf) (flush : Bool) :
    Option (Status × DBState Buf) :=
  if s.finished then some (s.bgStatus, s)
  else
    match Prepare ops fuel s flush [] [] 0 with
    | none => none
    | some (st, seq, s1) =>
      if !st.isOk then some (st, s1)
      else
        match WaitFor ops fuel s1 seq with
        | none => none
        | some s2 =>
          match WaitForCompactions ops fuel s2 with
          | none => none
          | some s3 =>
            if s3.bgStatus.isOk then
              let s4 := { s3 with bgStatus := ops.syncBackend false }
              some (s4.bgStatus, s4)
            else some (s3.bgStatus, s3)

/-- Modelled from the spec: the body of `DoubleBuffering::__Wait()` is not
among the sources; per the spec it blocks until
`num_scheduled == num_completed` and returns the background status. -/
def Wait (ops : BufOps Buf) (fuel : Nat) (s : DBState Buf) :
    Option (Status × DBState Buf) :=
  match WaitForCompactions ops fuel s with
  | none => none
  | some s1 => some (s1.bgStatus, s1)

/-- Embeds `DoubleBuffering::__Finish()`. -/
def Finish (ops : BufOps Buf) (fuel : Nat) (s : DBState Buf) :
    Option (Status × DBState Buf) :=
  if s.finished then some (s.bgStatus, s)
  else
    match Flush ops fuel s false with
    | none => none
    | some (_, s1) =>
      match WaitForCompactions ops fuel s1 with
      | none => none
      | some s2 =>
        if s2.bgStatus.isOk then
          let st := ops.syncBackend true
          some (st, { s2 with
            bgStatus := .assertionFailed "Already finished" st.toStr
            finished := true })
        else some (s2.bgStatus, { s2 with finished := true })

/-- The initial per-partition state: one active memtable and one spare
(double buffering), no compaction scheduled, background status OK. -/
def initState (store0 : Nat → Buf) : DBState Buf :=
  { store := store0
    membuf := 0
    bufs := [1]
    pending := []
    numScheduled := 0
    numCompleted := 0
    numBg := 0
    bgStatus := .ok
    finished := false }

/-- One observable transition of a partition: a complete foreground
operation (`Add`, `Flush`, `Sync`, `Wait`, `Finish`) or the thread pool
executing the oldest submitted compaction.  States related by `Step` are
the quiescent points (mutex released, no operation mid-step). -/
inductive Step (ops : BufOps Buf) : DBState Buf → DBState Buf → Prop where
  | add (fuel : Nat) (s : DBState Buf) (k v : Bytes) (st : Status) (s' : DBState Buf) :
      Add ops fuel s k v = some (st, s') → Step ops s s'
  | flush (fuel : Nat) (s : DBState Buf) (w : Bool) (st : Status) (s' : DBState Buf) :
      Flush ops fuel s w = some (st, s') → Step ops s s'
  | sync (fuel : Nat) (s : DBState Buf) (f : Bool) (st : Status) (s' : DBState Buf) :
      Sync ops fuel s f = some (st, s') → Step ops s s'
  | wait (fuel : Nat) (s : DBState Buf) (st : Status) (s' : DBState Buf) :
      Wait ops fuel s = some (st, s') → Step ops s s'
  | finish (fuel : Nat) (s : DBState Buf) (st : Status) (s' : DBState Buf) :
      Finish ops fuel s = some (st, s') → Step ops s s'
  | bg (fuel : Nat) (s : DBState Buf) (b : Nat) (rest : List Nat) (s' : DBState Buf) :
      s.pending = b :: rest →
      DoCompaction ops fuel { s with pending := rest } b = some s' → Step ops s s'

/-- Quiescent states reachable from the initial double-buffered state. -/
def Reachable (ops : BufOps Buf) (store0 : Nat → Buf) (s : DBState Buf) : Prop :=
  Relation.ReflTransGen (Step ops) (initState store0) s

/-- The counter bookkeeping carried along every execution: the stored
`uint32_t` values stay below `2^32`, `num_bg_compactions_` is the number
of queued-but-unexecuted pool compactions reduced modulo `2^32`, and the
uint32 difference `num_compac_scheduled_ - num_compac_completed_`
(computed with uint32 wraparound) equals that same in-flight count
modulo `2^32`. -/
def CountersInv (s : DBState Buf) : Prop :=
  s.numScheduled < 2 ^ 32 ∧ s.numCompleted < 2 ^ 32 ∧ s.numBg < 2 ^ 32 ∧
  s.numBg = s.pending.length % 2 ^ 32 ∧
  (s.numScheduled + 2 ^ 32 - s.numCompleted) % 2 ^ 32 = s.pending.length % 2 ^ 32

end DoubleBuffering

/-!
Shallow embedding of the `MDS::CLI` permission checks of
`src/libdeltafs/mds_cli.cc` (`IsReadOk`, `IsWriteOk`, `IsExecOk`,
`HasAccess`, and the directory variants `IsReadDirOk`, `IsWriteDirOk`,
`IsLookupOk`).  A C `Stat*` / `PathInfo*` is `Option Stat` /
`Option PathInfo` (NULL = `none`).  Mode bits carry their POSIX values.
-/

def S_IRUSR : Nat := 0o400
def S_IWUSR : Nat := 0o200
def S_IXUSR : Nat := 0o100
def S_IRGRP : Nat := 0o040
def S_IWGRP : Nat := 0o020
def S_IXGRP : Nat := 0o010
def S_IROTH : Nat := 0o004
def S_IWOTH : Nat := 0o002
def S_IXOTH : Nat := 0o001
def R_OK : Nat := 4
def W_OK : Nat := 2
def X_OK : Nat := 1

/-- The fields of `pdlfs::Stat` consulted by the permission checks. -/
structure Stat where
  fileMode : Nat
  userId : Nat
  groupId : Nat

/-- The fields of `MDS::CLI::PathInfo` consulted by the permission checks. -/
structure PathInfo where
  mode : Nat
  uid : Nat
  gid : Nat

/-- The identity of the client (`uid_`, `gid_` members of `MDS::CLI`). -/
structure CLI where
  uid : Nat
  gid : Nat

namespace CLI

/-- Embeds `MDS::CLI::IsReadOk(const Stat*)`. -/
def IsReadOk (c : CLI) : Option Stat → Bool
  | none => false
  | some s =>
    if c.uid = 0 then true
    else if c.uid = s.userId ∧ (s.fileMode &&& S_IRUSR) = S_IRUSR then true
    else if c.gid = s.groupId ∧ (s.fileMode &&& S_IRGRP) = S_IRGRP then true
    else if (s.fileMode &&& S_IROTH) = S_IROTH then true
    else false

/-- Embeds `MDS::CLI::IsWriteOk(const Stat*)`. -/
def IsWriteOk (c : CLI) : Option Stat → Bool
  | none => false
  | some s =>
    if c.uid = 0 then true
    else if c.uid = s.userId ∧ (s.fileMode &&& S_IWUSR) = S_IWUSR then true
    else if c.gid = s.groupId ∧ (s.fileMode &&& S_IWGRP) = S_IWGRP then true
    else if (s.fileMode &&& S_IWOTH) = S_IWOTH then true
    else false

/-- Embeds `MDS::CLI::IsExecOk(const Stat*)`. -/
def IsExecOk (c : CLI) : Option Stat → Bool
  | none => false
  | some s =>
    if c.uid = 0 then true
    else if c.uid = s.userId ∧ (s.fileMode &&& S_IXUSR) = S_IXUSR then true
    else if c.gid = s.groupId ∧ (s.fileMode &&& S_IXGRP) = S_IXGRP then true
    else if (s.fileMode &&& S_IXOTH) = S_IXOTH then true
    else false

/-- Embeds `MDS::CLI::HasAccess(int acc_mode, const Stat*)`. -/
def HasAccess (c : CLI) (accMode : Nat) (s : Option Stat) : Bool :=
  if (accMode &&& R_OK) = R_OK ∧ c.IsReadOk s = false then false
  else if (accMode &&& W_OK) = W_OK ∧ c.IsWriteOk s = false then false
  else if (accMode &&& X_OK) = X_OK ∧ c.IsExecOk s = false then false
  else true

/-- Embeds `MDS::CLI::IsReadDirOk(const PathInfo*)`. -/
def IsReadDirOk (c : CLI) : Option PathInfo → Bool
  | none => false
  | some info =>
    if c.uid = 0 then true
    else if c.uid = info.uid ∧ (info.mode &&& S_IRUSR) = S_IRUSR then true
    else if c.gid = info.gid ∧ (info.mode &&& S_IRGRP) = S_IRGRP then true
    else if (info.mode &&& S_IROTH) = S_IROTH then true
    else false

/-- Embeds `MDS::CLI::IsWriteDirOk(const PathInfo*)`. -/
def IsWriteDirOk (c : CLI) : Option PathInfo → Bool
  | none => false
  | some info =>
    if c.uid = 0 then true
    else if c.uid = info.uid ∧ (info.mode &&& S_IWUSR) = S_IWUSR then true
    else if c.gid = info.gid ∧ (info.mode &&& S_IWGRP) = S_IWGRP then true
    else if (info.mode &&& S_IWOTH) = S_IWOTH then true
    else false

/-- Embeds `MDS::CLI::IsLookupOk(const PathInfo*)`. -/
def IsLookupOk (c : CLI) : Option PathInfo → Bool
  | none => false
  | some info =>
    if c.uid = 0 then true
    else if c.uid = info.uid ∧ (info.mode &&& S_IXUSR) = S_IXUSR then true
    else if c.gid = info.gid ∧ (info.mode &&& S_IXGRP) = S_IXGRP then true
    else if (info.mode &&& S_IXOTH) = S_IXOTH then true
    else false

end CLI

/-!
PLFS-IO memtable and directory layer.  The implementation of
`WriteBuffer`, `DirWriter` and `DirReader` is not among the sources
(only their tests are), so this layer is modelled from the spec
(sections 4.2, 4.5, 4.6 of the specification).
-/

/-- Bytewise (memcmp-style) strict comparison of byte strings, the key
order used by the sorted memtable: compare byte by byte, a strict prefix
sorts before its extension. -/
def bytesLt : Bytes → Bytes → Bool
  | [], [] => false
  | [], _ :: _ => true
  | _ :: _, [] => false
  | a :: as, b :: bs => if a < b then true else if b < a then false else bytesLt as bs

/-- Modelled from the spec: `WriteBuffer` (section 4.2) — an append-only
buffer of `(key, value)` pairs kept in insertion order until
`FinishAndSort`. -/
structure WriteBuffer where
  entries : List (Bytes × Bytes)

namespace WriteBuffer

/-- Modelled from the spec: `WriteBuffer::Add(key, value)` appends one
record, preserving insertion order. -/
def add (b : WriteBuffer) (k v : Bytes) : WriteBuffer :=
  { entries := b.entries ++ [(k, v)] }

/-- Modelled from the spec: stable insertion of a record into an already
sorted run — the record is placed before the first entry whose key is not
bytewise smaller, so that among equal keys earlier-inserted records stay
first. -/
def orderedInsert (e : Bytes × Bytes) : List (Bytes × Bytes) → List (Bytes × Bytes)
  | [] => [e]
  | x :: xs => if bytesLt x.1 e.1 then x :: orderedInsert e xs else e :: x :: xs

/-- Modelled from the spec: the stable sort underlying
`WriteBuffer::FinishAndSort` — sort by bytewise key order, ties broken by
insertion order. -/
def sortEntries : List (Bytes × Bytes) → List (Bytes × Bytes)
  | [] => []
  | x :: xs => orderedInsert x (sortEntries xs)

/-- Modelled from the spec: `WriteBuffer::FinishAndSort()` performs a
stable sort of the buffered records by bytewise key order. -/
def finishAndSort (b : WriteBuffer) : WriteBuffer :=
  { entries := sortEntries b.entries }

/-- Embeds `WriteBuffer::NumEntries()`. -/
def numEntries (b : WriteBuffer) : Nat := b.entries.length

/-- Modelled from the spec: the record the buffer's iterator is positioned
on after `SeekToFirst()`. -/
def seekToFirst (b : WriteBuffer) : Option (Bytes × Bytes) := b.entries.head?

/-- Modelled from the spec: the record the buffer's iterator is positioned
on after `SeekToLast()`. -/
def seekToLast (b : WriteBuffer) : Option (Bytes × Bytes) := b.entries.getLast?

end WriteBuffer

/-- The fixed-width 64-bit little-endian key encoding `PutFixed64` used by
the write-buffer test. -/
def putFixed64 (n : Nat) : Bytes :=
  [n % 256, n / 256 % 256, n / 256 ^ 2 % 256, n / 256 ^ 3 % 256,
   n / 256 ^ 4 % 256, n / 256 ^ 5 % 256, n / 256 ^ 6 % 256, n / 256 ^ 7 % 256]

/-- Modelled from the spec: one partition of a directory in write mode —
the closed epochs (oldest first) and the records of the currently open
epoch, each epoch in insertion order. -/
structure Partition where
  epochs : List (List (Bytes × Bytes))
  active : List (Bytes × Bytes)

/-- Modelled from the spec: a directory opened in write mode with
`2^lg_parts` partitions and a router hash. -/
structure DirState where
  lgParts : Nat
  hash : Bytes → Nat
  parts : List Partition

/-- Modelled from the spec: the writer operations visible to this model —
`Append(key, value)` and `EpochFlush`. -/
inductive WOp where
  | append : Bytes → Bytes → WOp
  | epochFlush : WOp

/-- The partition index a key is routed to:
`hash(key) mod 2^lg_parts`. -/
def DirState.route (d : DirState) (k : Bytes) : Nat :=
  d.hash k % 2 ^ d.lgParts

/-- Modelled from the spec: apply one writer operation.  `Append` routes
the record to its partition's active memtable; `EpochFlush` closes the
current epoch of every partition. -/
def DirState.applyOp (d : DirState) : WOp → DirState
  | .append k v =>
    { d with
      parts := d.parts.set (d.route k)
        { (d.parts.getD (d.route k) ⟨[], []⟩) with
          active := (d.parts.getD (d.route k) ⟨[], []⟩).active ++ [(k, v)] } }
  | .epochFlush =>
    { d with parts := d.parts.map fun p => { epochs := p.epochs ++ [p.active], active := [] } }

/-- Modelled from the spec: run a whole write sequence. -/
def DirState.runOps (d : DirState) (ops : List WOp) : DirState :=
  ops.foldl DirState.applyOp d

/-- Modelled from the spec: `DirWriter::Finish()` — flush the current
epoch if any appends occurred since the last flush, then finalize. -/
def DirState.finish (d : DirState) : DirState :=
  if d.parts.any fun p => !p.active.isEmpty then d.applyOp .epochFlush else d

/-- Modelled from the spec: an empty directory with `2^lg_parts`
partitions. -/
def DirState.init (lg : Nat) (hash : Bytes → Nat) : DirState :=
  { lgParts := lg, hash := hash, parts := List.replicate (2 ^ lg) ⟨[], []⟩ }

/-- Modelled from the spec: the value a point lookup returns from one
epoch — the value of the last record written for the key in that epoch
(ties within an epoch are broken in favour of the last write when
`unique_keys=true`), or `none` when the key does not appear. -/
def epochLookupLast (e : List (Bytes × Bytes)) (k : Bytes) : Option Bytes :=
  ((e.filter fun r => r.1 == k).getLast?).map (·.2)

/-- Modelled from the spec: `DirReader::ReadAll(key)` restricted to one
partition.  With `unique_keys=true` epochs are scanned newest→oldest and
the first hit is returned; with `unique_keys=false` all epochs are
scanned and the matching values are concatenated in insertion order
across epochs.  A miss returns the empty byte string. -/
def readAllPart (uniqueKeys : Bool) (p : Partition) (k : Bytes) : Bytes :=
  if uniqueKeys then
    match p.epochs.reverse.findSome? (fun e => epochLookupLast e k) with
    | some v => v
    | none => []
  else
    ((p.epochs.flatten.filter fun r => r.1 == k).map (·.2)).flatten

/-- Modelled from the spec: `DirReader::ReadAll(key)` — hash the key to
its partition and read there. -/
def DirState.readAll (d : DirState) (uniqueKeys : Bool) (k : Bytes) : Bytes :=
  readAllPart uniqueKeys (d.parts.getD (d.route k) ⟨[], []⟩) k

/-- All records a partition holds, closed epochs first (oldest to
newest), then the open epoch, each in insertion order. -/
def Partition.allRecords (p : Partition) : List (Bytes × Bytes) :=
  p.epochs.flatten ++ p.active

/-- The `(key, value)` records appended by a write sequence, in program
order. -/
def kvAppends (ops : List WOp) : List (Bytes × Bytes) :=
  ops.filterMap fun o =>
    match o with
    | .append k v => some (k, v)
    | .epochFlush => none

/-- The partition the reader and writer both select for key `k`. -/
def DirState.partOf (d : DirState) (k : Bytes) : Partition :=
  d.parts.getD (d.route k) ⟨[], []⟩

/-- The values written for key `k` by a write sequence, in program
order. -/
def writesOf (ops : List WOp) (k : Bytes) : List Bytes :=
  ops.filterMap fun o =>
    match o with
    | .append k' v => if k' == k then some v else none
    | .epochFlush => none

/-!
A concrete instantiation of the double-buffering coordinator, used to
evaluate the model on closed inputs: buffers are plain record lists, a
buffer has room while it holds fewer than four records, compactions and
backend syncs succeed.
-/

abbrev KVBuf := List (Bytes × Bytes)

def kvOps : BufOps KVBuf :=
  { addToBuffer := fun b k v => b ++ [(k, v)]
    hasRoom := fun b _ _ => b.length < 4
    isEmpty := fun b => b.isEmpty
    compact := fun _ => .ok
    clear := fun _ => []
    syncBackend := fun _ => .ok }

def kvInit : DBState KVBuf := DoubleBuffering.initState (fun _ => [])

/-- The state left behind by a first successful `__Finish` on the concrete
instantiation. -/
def kvFinished : DBState KVBuf :=
  match DoubleBuffering.Finish kvOps 10 kvInit with
  | some (_, t) => t
  | none => kvInit

/-- A concrete unfinished state whose background status holds a latched
compaction error. -/
def kvLatched : DBState KVBuf :=
  { kvInit with bgStatus := .ioError "compaction error" }

/-- A concrete state whose buffer 0 is non-empty, for exercising the
pool-submission path of `TryScheduleCompaction`. -/
def kvNonEmptyBuf : DBState KVBuf :=
  { kvInit with store := fun _ => [([1], [2])] }

/-- The concrete state after `n` forced flushes of an empty partition:
identical to the initial state except that both uint32 counters hold
`n mod 2^32`.  At `n = 2^32` the stored counters have wrapped back to
zero. -/
def wrapState (n : Nat) : DBState KVBuf :=
  { kvInit with numScheduled := n % 2 ^ 32, numCompleted := n % 2 ^ 32 }

/-!  Theorems.  -/

namespace DoubleBuffering

lemma length_pos_of_getLast?_eq_some {α : Type} {l : List α} {a : α}
    (h : l.getLast? = some a) : 1 ≤ l.length := by
  cases l with
  | nil => simp at h
  | cons x xs => simp

/-- Bookkeeping facts about one `Prepare` call: the number of buffers held
by the spare deque plus the pool queue is conserved, and the uint32
counter bookkeeping `CountersInv` is preserved. -/
lemma prepare_props {Buf : Type} (ops : BufOps Buf) :
    ∀ (fuel : Nat) (s : DBState Buf) (force : Bool) (k v : Bytes) (seq : Nat)
      (st : Status) (seq' : Nat) (s' : DBState Buf),
      Prepare ops fuel s force k v seq = some (st, seq', s') →
      s'.bufs.length + s'.pending.length = s.bufs.length + s.pending.length ∧
      (CountersInv s → CountersInv s') := by
  intro fuel
  induction fuel with
  | zero =>
    intro s force k v seq st seq' s' h
    simp [Prepare] at h
  | succ n ih =>
    intro s force k v seq st seq' s' h
    rw [Prepare] at h
    split at h
    · -- background error latched: the loop breaks immediately
      simp only [Option.some.injEq, Prod.mk.injEq] at h
      obtain ⟨-, -, h3⟩ := h
      subst h3
      exact ⟨rfl, fun q => q⟩
    · split at h
      · -- room in the current write buffer
        simp only [Option.some.injEq, Prod.mk.injEq] at h
        obtain ⟨-, -, h3⟩ := h
        subst h3
        exact ⟨rfl, fun q => q⟩
      · split at h
        · -- bufs_ empty: cv wait, the pool runs the oldest pending compaction
          rename_i hpend
          split at h
          · exact absurd h (by simp)
          · rename_i b rest hcons
            split at h
            · exact absurd h (by simp)
            · rename_i a1 a2 s1 hinner
              obtain ⟨e1, q1⟩ := ih _ _ _ _ _ _ _ _ hinner
              obtain ⟨e2, q2⟩ := ih _ _ _ _ _ _ _ _ h
              simp [completeOne] at e1
              have hlen : s.pending.length = rest.length + 1 := by rw [hcons]; rfl
              refine ⟨by omega, ?_⟩
              intro hq
              apply q2
              apply q1
              simp only [CountersInv, completeOne, List.length_cons] at hq ⊢
              omega
        · -- a spare buffer is available: TryScheduleCompaction + buffer swap
          split at h
          · exact absurd h (by simp)
          · rename_i s2 hafter
            split at h
            · exact absurd h (by simp)
            · rename_i nb hlast
              obtain ⟨e2, q2⟩ := ih _ _ _ _ _ _ _ _ h
              have hb1 : 1 ≤ s2.bufs.length := length_pos_of_getLast?_eq_some hlast
              simp at e2
              split at hafter
              · -- outgoing buffer empty: compaction executed inline
                split at hafter
                · exact absurd hafter (by simp)
                · rename_i a1 a2 t hinner
                  simp only [Option.some.injEq] at hafter
                  subst hafter
                  obtain ⟨e1, q1⟩ := ih _ _ _ _ _ _ _ _ hinner
                  simp [completeOne] at e1
                  refine ⟨by omega, ?_⟩
                  intro hq
                  apply q2
                  have ht : CountersInv t := by
                    apply q1
                    simp only [CountersInv, completeOne, List.length_cons] at hq ⊢
                    omega
                  simp only [CountersInv] at ht ⊢
                  exact ht
              · -- outgoing buffer non-empty: submitted to the thread pool
                simp only [Option.some.injEq] at hafter
                subst hafter
                simp at e2 hb1
                refine ⟨by omega, ?_⟩
                intro hq
                apply q2
                simp only [CountersInv, List.length_append, List.length_cons,
                  List.length_nil] at hq ⊢
                omega

/-- Bookkeeping facts about one pool execution of `DoCompaction(immbuf)`
on a buffer taken out of the queue: the cleared buffer returns to the
spare deque, and if the caller's state satisfied `CountersInv` before the
buffer was popped from the queue (so its `num_bg_compactions_` still
counts the popped buffer), the bookkeeping holds again afterwards. -/
lemma doCompaction_props {Buf : Type} (ops : BufOps Buf) (fuel : Nat) (s : DBState Buf)
    (b : Nat) (s' : DBState Buf) (h : DoCompaction ops fuel s b = some s') :
    s'.bufs.length + s'.pending.length = s.bufs.length + s.pending.length + 1 ∧
    ((s.numScheduled < 2 ^ 32 ∧ s.numCompleted < 2 ^ 32 ∧ s.numBg < 2 ^ 32 ∧
      s.numBg = (s.pending.length + 1) % 2 ^ 32 ∧
      (s.numScheduled + 2 ^ 32 - s.numCompleted) % 2 ^ 32
        = (s.pending.length + 1) % 2 ^ 32) →
      CountersInv s') := by
  unfold DoCompaction at h
  split at h
  · exact absurd h (by simp)
  · rename_i a1 a2 t hp
    simp only [Option.some.injEq] at h
    subst h
    obtain ⟨e1, q1⟩ := prepare_props ops _ _ _ _ _ _ _ _ _ hp
    simp [completeOne] at e1
    refine ⟨by omega, ?_⟩
    intro hq
    apply q1
    simp only [CountersInv, completeOne]
    omega

/-- Bookkeeping facts about `WaitFor`. -/
lemma waitFor_props {Buf : Type} (ops : BufOps Buf) :
    ∀ (fuel : Nat) (s : DBState Buf) (seq : Nat) (s' : DBState Buf),
      WaitFor ops fuel s seq = some s' →
      s'.bufs.length + s'.pending.length = s.bufs.length + s.pending.length ∧
      (CountersInv s → CountersInv s') := by
  intro fuel
  induction fuel with
  | zero =>
    intro s seq s' h
    simp [WaitFor] at h
  | succ n ih =>
    intro s seq s' h
    rw [WaitFor] at h
    split at h
    · simp only [Option.some.injEq] at h
      subst h
      exact ⟨rfl, fun q => q⟩
    · split at h
      · exact absurd h (by simp)
      · rename_i b rest hcons
        split at h
        · exact absurd h (by simp)
        · rename_i s1 hdc
          obtain ⟨e1, q1⟩ := doCompaction_props ops _ _ _ _ hdc
          obtain ⟨e2, q2⟩ := ih _ _ _ h
          simp at e1
          have hlen : s.pending.length = rest.length + 1 := by rw [hcons]; rfl
          refine ⟨by omega, ?_⟩
          intro hq
          apply q2
          apply q1
          simp only [CountersInv, List.length_cons] at hq ⊢
          omega

/-- Bookkeeping facts about `WaitForCompactions`. -/
lemma waitForCompactions_props {Buf : Type} (ops : BufOps Buf) :
    ∀ (fuel : Nat) (s : DBState Buf) (s' : DBState Buf),
      WaitForCompactions ops fuel s = some s' →
      s'.bufs.length + s'.pending.length = s.bufs.length + s.pending.length ∧
      (CountersInv s → CountersInv s') := by
  intro fuel
  induction fuel with
  | zero =>
    intro s s' h
    simp [WaitForCompactions] at h
  | succ n ih =>
    intro s s' h
    rw [WaitForCompactions] at h
    split at h
    · simp only [Option.some.injEq] at h
      subst h
      exact ⟨rfl, fun q => q⟩
    · split at h
      · exact absurd h (by simp)
      · rename_i b rest hcons
        split at h
        · exact absurd h (by simp)
        · rename_i s1 hdc
          obtain ⟨e1, q1⟩ := doCompaction_props ops _ _ _ _ hdc
          obtain ⟨e2, q2⟩ := ih _ _ h
          simp at e1
          have hlen : s.pending.length = rest.length + 1 := by rw [hcons]; rfl
          refine ⟨by omega, ?_⟩
          intro hq
          apply q2
          apply q1
          simp only [CountersInv, List.length_cons] at hq ⊢
          omega

/-- Bookkeeping facts about one complete `__Add` call. -/
lemma add_props {Buf : Type} (ops : BufOps Buf) (fuel : Nat) (s : DBState Buf)
    (k v : Bytes) (st : Status) (s' : DBState Buf) (h : Add ops fuel s k v = some (st, s')) :
    s'.bufs.length + s'.pending.length = s.bufs.length + s.pending.length ∧
    (CountersInv s → CountersInv s') := by
  unfold Add at h
  split at h
  · simp only [Option.some.injEq, Prod.mk.injEq] at h
    obtain ⟨-, h2⟩ := h
    subst h2
    exact ⟨rfl, fun q => q⟩
  · split at h
    · exact absurd h (by simp)
    · rename_i st1 sq s1 hp
      obtain ⟨e1, q1⟩ := prepare_props ops _ _ _ _ _ _ _ _ _ hp
      split at h <;>
      · simp only [Option.some.injEq, Prod.mk.injEq] at h
        obtain ⟨-, h2⟩ := h
        subst h2
        refine ⟨by simpa using e1, ?_⟩
        intro hq
        have h1 := q1 hq
        simp only [CountersInv] at h1 ⊢
        exact h1

/-- Bookkeeping facts about one complete `__Flush` call. -/
lemma flush_props {Buf : Type} (ops : BufOps Buf) (fuel : Nat) (s : DBState Buf)
    (w : Bool) (st : Status) (s' : DBState Buf) (h : Flush ops fuel s w = some (st, s')) :
    s'.bufs.length + s'.pending.length = s.bufs.length + s.pending.length ∧
    (CountersInv s → CountersInv s') := by
  unfold Flush at h
  split at h
  · simp only [Option.some.injEq, Prod.mk.injEq] at h
    obtain ⟨-, h2⟩ := h
    subst h2
    exact ⟨rfl, fun q => q⟩
  · split at h
    · exact absurd h (by simp)
    · rename_i st1 sq s1 hp
      obtain ⟨e1, q1⟩ := prepare_props ops _ _ _ _ _ _ _ _ _ hp
      split at h
      · split at h
        · exact absurd h (by simp)
        · rename_i s2 hw
          obtain ⟨e2, q2⟩ := waitFor_props ops _ _ _ _ hw
          simp only [Option.some.injEq, Prod.mk.injEq] at h
          obtain ⟨-, h2⟩ := h
          subst h2
          exact ⟨by omega, fun hq => q2 (q1 hq)⟩
      · simp only [Option.some.injEq, Prod.mk.injEq] at h
        obtain ⟨-, h2⟩ := h
        subst h2
        exact ⟨e1, q1⟩

/-- Bookkeeping facts about one complete `__Sync` call. -/
lemma sync_props {Buf : Type} (ops : BufOps Buf) (fuel : Nat) (s : DBState Buf)
    (f : Bool) (st : Status) (s' : DBState Buf) (h : Sync ops fuel s f = some (st, s')) :
    s'.bufs.length + s'.pending.length = s.bufs.length + s.pending.length ∧
    (CountersInv s → CountersInv s') := by
  unfold Sync at h
  split at h
  · simp only [Option.some.injEq, Prod.mk.injEq] at h
    obtain ⟨-, h2⟩ := h
    subst h2
    exact ⟨rfl, fun q => q⟩
  · split at h
    · exact absurd h (by simp)
    · rename_i st1 sq s1 hp
      obtain ⟨e1, q1⟩ := prepare_props ops _ _ _ _ _ _ _ _ _ hp
      split at h
      · simp only [Option.some.injEq, Prod.mk.injEq] at h
        obtain ⟨-, h2⟩ := h
        subst h2
        exact ⟨e1, q1⟩
      · split at h
        · exact absurd h (by simp)
        · rename_i s2 hw
          obtain ⟨e2, q2⟩ := waitFor_props ops _ _ _ _ hw
          split at h
          · exact absurd h (by simp)
          · rename_i s3 hwc
            obtain ⟨e3, q3⟩ := waitForCompactions_props ops _ _ _ hwc
            split at h <;>
            · simp only [Option.some.injEq, Prod.mk.injEq] at h
              obtain ⟨-, h2⟩ := h
              subst h2
              exact ⟨show s3.bufs.length + s3.pending.length =
                         s.bufs.length + s.pending.length by omega,
                     fun hq => q3 (q2 (q1 hq))⟩

/-- Bookkeeping facts about one complete `__Wait` call. -/
lemma wait_props {Buf : Type} (ops : BufOps Buf) (fuel : Nat) (s : DBState Buf)
    (st : Status) (s' : DBState Buf) (h : Wait ops fuel s = some (st, s')) :
    s'.bufs.length + s'.pending.length = s.bufs.length + s.pending.length ∧
    (CountersInv s → CountersInv s') := by
  unfold Wait at h
  split at h
  · exact absurd h (by simp)
  · rename_i s1 hwc
    simp only [Option.some.injEq, Prod.mk.injEq] at h
    obtain ⟨-, h2⟩ := h
    subst h2
    exact waitForCompactions_props ops _ _ _ hwc

/-- Bookkeeping facts about one complete `__Finish` call. -/
lemma finish_props {Buf : Type} (ops : BufOps Buf) (fuel : Nat) (s : DBState Buf)
    (st : Status) (s' : DBState Buf) (h : Finish ops fuel s = some (st, s')) :
    s'.bufs.length + s'.pending.length = s.bufs.length + s.pending.length ∧
    (CountersInv s → CountersInv s') := by
  unfold Finish at h
  split at h
  · simp only [Option.some.injEq, Prod.mk.injEq] at h
    obtain ⟨-, h2⟩ := h
    subst h2
    exact ⟨rfl, fun q => q⟩
  · split at h
    · exact absurd h (by simp)
    · rename_i st1 s1 hf
      obtain ⟨e1, q1⟩ := flush_props ops _ _ _ _ _ hf
      split at h
      · exact absurd h (by simp)
      · rename_i s2 hwc
        obtain ⟨e2, q2⟩ := waitForCompactions_props ops _ _ _ hwc
        split at h <;>
        · simp only [Option.some.injEq, Prod.mk.injEq] at h
          obtain ⟨-, h2⟩ := h
          subst h2
          exact ⟨show s2.bufs.length + s2.pending.length =
                     s.bufs.length + s.pending.length by omega,
                 fun hq => q2 (q1 hq)⟩

/-- Bookkeeping facts about one observable transition. -/
lemma step_props {Buf : Type} (ops : BufOps Buf) {s s' : DBState Buf}
    (h : Step ops s s') :
    s'.bufs.length + s'.pending.length = s.bufs.length + s.pending.length ∧
    (CountersInv s → CountersInv s') := by
  cases h with
  | add fuel s k v st s' hop => exact add_props ops _ _ _ _ _ _ hop
  | flush fuel s w st s' hop => exact flush_props ops _ _ _ _ _ hop
  | sync fuel s f st s' hop => exact sync_props ops _ _ _ _ _ hop
  | wait fuel s st s' hop => exact wait_props ops _ _ _ _ hop
  | finish fuel s st s' hop => exact finish_props ops _ _ _ _ hop
  | bg fuel s b rest s' hcons hop =>
    obtain ⟨e1, q1⟩ := doCompaction_props ops _ _ _ _ hop
    simp at e1
    have hlen : s.pending.length = rest.length + 1 := by rw [hcons]; rfl
    refine ⟨by omega, ?_⟩
    intro hq
    apply q1
    simp only [CountersInv, List.length_cons] at hq ⊢
    omega

/-- The inductive invariant of one partition: the uint32 counter
bookkeeping `CountersInv` holds, and exactly one buffer lives outside
`membuf_` (in the spare deque or in the pool queue). -/
lemma reachable_inv {Buf : Type} (ops : BufOps Buf) (store0 : Nat → Buf)
    (s : DBState Buf) (h : Reachable ops store0 s) :
    CountersInv s ∧ s.bufs.length + s.pending.length = 1 := by
  induction h with
  | refl =>
    constructor
    · simp only [CountersInv, initState, List.length_nil]
      omega
    · rfl
  | tail hab hstep ih =>
    obtain ⟨e1, q1⟩ := step_props ops hstep
    obtain ⟨i1, i2⟩ := ih
    exact ⟨q1 i1, by omega⟩

/-- The state a first successful `__Finish` leaves behind: `finished_` is
set and `bg_status_` is pinned to `AssertionFailed("Already finished",
finish_status)`, which is non-OK. -/
lemma finish_ok_state {Buf : Type} (ops : BufOps Buf) (fuel : Nat) {s0 : DBState Buf}
    {st : Status} {s1 : DBState Buf} (h0 : s0.finished = false)
    (hF : Finish ops fuel s0 = some (st, s1)) (hok : st.isOk = true) :
    s1.finished = true ∧ s1.bgStatus = .assertionFailed "Already finished" st.toStr := by
  unfold Finish at hF
  rw [h0] at hF
  simp only [Bool.false_eq_true, if_false] at hF
  split at hF
  · exact absurd hF (by simp)
  · rename_i st1 t1 hf
    split at hF
    · exact absurd hF (by simp)
    · rename_i t2 hwc
      split at hF
      · simp only [Option.some.injEq, Prod.mk.injEq] at hF
        obtain ⟨h1, h2⟩ := hF
        subst h1
        subst h2
        exact ⟨rfl, rfl⟩
      · rename_i hbad
        simp only [Option.some.injEq, Prod.mk.injEq] at hF
        obtain ⟨h1, h2⟩ := hF
        subst h1
        rw [hok] at hbad
        exact absurd rfl hbad

/-- Claim C2: after `__Finish` has returned successfully on a partition's
`DoubleBuffering`, every subsequent `__Add`, `__Flush` and `__Sync` call
is rejected: each returns the pinned non-OK status and leaves the state
untouched — nothing is appended to any buffer and no compaction is
scheduled. -/
theorem C2_no_writes_after_finish {Buf : Type} (ops : BufOps Buf) (fuel fuel' : Nat)
    (s0 : DBState Buf) (st : Status) (s1 : DBState Buf) (k v : Bytes) (w f : Bool)
    (h0 : s0.finished = false) (hF : Finish ops fuel s0 = some (st, s1))
    (hok : st.isOk = true) :
    s1.bgStatus.isOk = false ∧
    Add ops fuel' s1 k v = some (s1.bgStatus, s1) ∧
    Flush ops fuel' s1 w = some (s1.bgStatus, s1) ∧
    Sync ops fuel' s1 f = some (s1.bgStatus, s1) := by
  obtain ⟨hfin, hbg⟩ := finish_ok_state ops fuel h0 hF hok
  refine ⟨by rw [hbg]; rfl, ?_, ?_, ?_⟩
  · unfold Add
    rw [hfin]
    rfl
  · unfold Flush
    rw [hfin]
    rfl
  · unfold Sync
    rw [hfin]
    rfl

/-- Witness for C2 on the concrete instantiation. -/
theorem C2_no_writes_after_finish_witness :
    kvFinished.bgStatus.isOk = false ∧
    Add kvOps 5 kvFinished [1] [2] = some (kvFinished.bgStatus, kvFinished) ∧
    Flush kvOps 5 kvFinished true = some (kvFinished.bgStatus, kvFinished) ∧
    Sync kvOps 5 kvFinished false = some (kvFinished.bgStatus, kvFinished) :=
  C2_no_writes_after_finish kvOps 10 5 kvInit Status.ok kvFinished [1] [2] true false
    rfl rfl rfl

/-- Claim C3 (amended): a second `__Finish` call after a first successful
one performs no further compaction, sync or close — the state is returned
unchanged — but it returns the pinned non-OK
`AssertionFailed("Already finished")` status, not the first call's
successful result. -/
theorem C3_second_finish {Buf : Type} (ops : BufOps Buf) (fuel fuel' : Nat)
    (s0 : DBState Buf) (st : Status) (s1 : DBState Buf)
    (h0 : s0.finished = false) (hF : Finish ops fuel s0 = some (st, s1))
    (hok : st.isOk = true) :
    Finish ops fuel' s1 = some (s1.bgStatus, s1) ∧
    s1.bgStatus = .assertionFailed "Already finished" st.toStr ∧
    s1.bgStatus.isOk = false := by
  obtain ⟨hfin, hbg⟩ := finish_ok_state ops fuel h0 hF hok
  refine ⟨?_, hbg, by rw [hbg]; rfl⟩
  unfold Finish
  rw [hfin]
  rfl

/-- Counterexample to claim C3 as stated: on the concrete instantiation
the first `__Finish` returns OK, while the second returns the
`AssertionFailed("Already finished")` status — not the same successful
result. -/
theorem C3_counterexample :
    (Finish kvOps 10 kvInit).map Prod.fst = some Status.ok ∧
    (Finish kvOps 10 kvFinished).map Prod.fst =
      some (Status.assertionFailed "Already finished" "OK") ∧
    Status.assertionFailed "Already finished" "OK" ≠ Status.ok :=
  ⟨rfl, rfl, by decide⟩

/-- Witness for the amended C3 on the concrete instantiation. -/
theorem C3_second_finish_witness :
    Finish kvOps 10 kvFinished = some (kvFinished.bgStatus, kvFinished) ∧
    kvFinished.bgStatus = Status.assertionFailed "Already finished" "OK" := by
  have h := C3_second_finish kvOps 10 10 kvInit Status.ok kvFinished rfl rfl rfl
  exact ⟨h.1, h.2.1⟩

/-- Claim C4: while a non-OK background status is latched and `__Finish`
has not been called, `__Add`, `__Flush` and `__Sync` all return the
latched status and `Prepare` returns it immediately without scheduling
another compaction — the state, including both compaction counters and
the pool queue, is unchanged. -/
theorem C4_latched_error {Buf : Type} (ops : BufOps Buf) (fuel : Nat) (s : DBState Buf)
    (k v : Bytes) (w f : Bool) (hfin : s.finished = false)
    (hbg : s.bgStatus.isOk = false) (hfuel : 0 < fuel) :
    Add ops fuel s k v = some (s.bgStatus, s) ∧
    Flush ops fuel s w = some (s.bgStatus, s) ∧
    Sync ops fuel s f = some (s.bgStatus, s) ∧
    (∀ (force : Bool) (seq : Nat),
      Prepare ops fuel s force k v seq = some (s.bgStatus, seq, s)) := by
  obtain ⟨n, rfl⟩ : ∃ n, fuel = n + 1 := by
    cases fuel with
    | zero => exact absurd hfuel (by simp)
    | succ n => exact ⟨n, rfl⟩
  have hprep : ∀ (force : Bool) (k' v' : Bytes) (seq : Nat),
      Prepare ops (n + 1) s force k' v' seq = some (s.bgStatus, seq, s) := by
    intro force k' v' seq
    rw [Prepare]
    rw [hbg]
    rfl
  refine ⟨?_, ?_, ?_, fun force seq => hprep force k v seq⟩
  · unfold Add
    rw [hfin, hprep]
    simp [hbg]
  · unfold Flush
    rw [hfin, hprep]
    simp [hbg]
  · unfold Sync
    rw [hfin, hprep]
    simp [hbg]

/-- Witness for C4 on the concrete instantiation. -/
theorem C4_latched_error_witness :
    Add kvOps 3 kvLatched [1] [2] = some (kvLatched.bgStatus, kvLatched) ∧
    Flush kvOps 3 kvLatched true = some (kvLatched.bgStatus, kvLatched) ∧
    Sync kvOps 3 kvLatched false = some (kvLatched.bgStatus, kvLatched) ∧
    Prepare kvOps 3 kvLatched true [1] [2] 0 = some (kvLatched.bgStatus, 0, kvLatched) := by
  have h := C4_latched_error kvOps 3 kvLatched [1] [2] true false rfl rfl (by decide)
  exact ⟨h.1, h.2.1, h.2.2.1, h.2.2.2 true 0⟩

/-- Along any terminating `Prepare` call the wrapped uint32 completion
counter behaves as a plain monotone counter as long as it stays away
from the `2^32` wrap: at most `3 ^ fuel` compactions complete, and if
they all fit below `2^32` the counter only moves forward. -/
lemma prepare_completed_bounds {Buf : Type} (ops : BufOps Buf) :
    ∀ (fuel : Nat) (s : DBState Buf) (force : Bool) (k v : Bytes) (seq : Nat)
      (st : Status) (seq' : Nat) (s' : DBState Buf),
      Prepare ops fuel s force k v seq = some (st, seq', s') →
      s.numCompleted + 3 ^ fuel < 2 ^ 32 →
      s.numCompleted ≤ s'.numCompleted ∧
      s'.numCompleted ≤ s.numCompleted + 3 ^ fuel := by
  intro fuel
  induction fuel with
  | zero =>
    intro s force k v seq st seq' s' h hb
    simp [Prepare] at h
  | succ n ih =>
    intro s force k v seq st seq' s' h hb
    have h3 : (3 : Nat) ^ (n + 1) = 3 ^ n * 3 := pow_succ 3 n
    have h1 : 1 ≤ (3 : Nat) ^ n := Nat.one_le_pow _ _ (by norm_num)
    rw [Prepare] at h
    split at h
    · simp only [Option.some.injEq, Prod.mk.injEq] at h
      obtain ⟨-, -, hx⟩ := h
      subst hx
      omega
    · split at h
      · simp only [Option.some.injEq, Prod.mk.injEq] at h
        obtain ⟨-, -, hx⟩ := h
        subst hx
        omega
      · split at h
        · -- cv wait: the pool completes the oldest pending compaction
          rename_i hpend
          split at h
          · exact absurd h (by simp)
          · rename_i b rest hcons
            split at h
            · exact absurd h (by simp)
            · rename_i a1 a2 s1 hinner
              obtain ⟨g1, g2⟩ := ih _ _ _ _ _ _ _ _ hinner
                (by simp [completeOne]; omega)
              simp [completeOne] at g1 g2
              obtain ⟨g3, g4⟩ := ih _ _ _ _ _ _ _ _ h (by omega)
              omega
        · -- TryScheduleCompaction + buffer swap
          split at h
          · exact absurd h (by simp)
          · rename_i s2 hafter
            split at h
            · exact absurd h (by simp)
            · rename_i nb hlast
              split at hafter
              · -- empty outgoing buffer: compaction executed inline
                split at hafter
                · exact absurd hafter (by simp)
                · rename_i a1 a2 t hinner
                  simp only [Option.some.injEq] at hafter
                  subst hafter
                  obtain ⟨g1, g2⟩ := ih _ _ _ _ _ _ _ _ hinner
                    (by simp [completeOne]; omega)
                  simp [completeOne] at g1 g2
                  obtain ⟨g3, g4⟩ := ih _ _ _ _ _ _ _ _ h (by simp; omega)
                  simp at g3 g4
                  omega
              · -- non-empty outgoing buffer: submitted to the pool queue
                simp only [Option.some.injEq] at hafter
                subst hafter
                obtain ⟨g3, g4⟩ := ih _ _ _ _ _ _ _ _ h (by simp; omega)
                simp at g3 g4
                omega

/-- Away from the uint32 wrap, one `DoCompaction` advances the completion
counter by at least one (its own compaction body) and by at most
`3 ^ fuel + 1` (counting the compactions run opportunistically by the
trailing `Prepare`). -/
lemma doCompaction_completed_bounds {Buf : Type} (ops : BufOps Buf) (fuel : Nat)
    (s : DBState Buf) (b : Nat) (s' : DBState Buf)
    (h : DoCompaction ops fuel s b = some s')
    (hb : s.numCompleted + 3 ^ fuel + 1 < 2 ^ 32) :
    s.numCompleted + 1 ≤ s'.numCompleted ∧
    s'.numCompleted ≤ s.numCompleted + 3 ^ fuel + 1 := by
  unfold DoCompaction at h
  split at h
  · exact absurd h (by simp)
  · rename_i a1 a2 t hp
    simp only [Option.some.injEq] at h
    subst h
    obtain ⟨g1, g2⟩ := prepare_completed_bounds ops _ _ _ _ _ _ _ _ _ hp
      (by simp [completeOne]; omega)
    simp [completeOne] at g1 g2
    omega

/-- Claim C7: when `TryScheduleCompaction` is invoked on an outgoing
buffer, the compaction body runs inline in the calling thread exactly
when the buffer is empty — the call then reduces to `DoCompaction`
executed before `TryScheduleCompaction` returns, so nothing is handed to
the pool queue for that buffer here, and (away from the uint32 wrap of
the completion counter) the completion counter has already advanced when
the call returns; a non-empty buffer is instead submitted to the
external thread pool, its compaction not yet executed. -/
theorem C7_inline_iff_empty {Buf : Type} (ops : BufOps Buf) (fuel : Nat)
    (s : DBState Buf) (immbuf : Nat) :
    (ops.isEmpty (s.store immbuf) = false →
      TryScheduleCompaction ops fuel s immbuf =
        some ((s.numScheduled + 1) % 2 ^ 32,
          { s with numScheduled := (s.numScheduled + 1) % 2 ^ 32,
                   numBg := (s.numBg + 1) % 2 ^ 32,
                   pending := s.pending ++ [immbuf] })) ∧
    (ops.isEmpty (s.store immbuf) = true →
      TryScheduleCompaction ops fuel s immbuf =
        Option.map (fun t => ((s.numScheduled + 1) % 2 ^ 32, t))
          (DoCompaction ops fuel
            { s with numScheduled := (s.numScheduled + 1) % 2 ^ 32,
                     numBg := (s.numBg + 1) % 2 ^ 32 } immbuf) ∧
      ∀ (seq : Nat) (t : DBState Buf),
        TryScheduleCompaction ops fuel s immbuf = some (seq, t) →
        seq = (s.numScheduled + 1) % 2 ^ 32 ∧
        (s.numCompleted + 3 ^ fuel + 1 < 2 ^ 32 →
          s.numCompleted + 1 ≤ t.numCompleted)) := by
  constructor
  · intro hne
    unfold TryScheduleCompaction
    rw [hne]
    rfl
  · intro hemp
    constructor
    · unfold TryScheduleCompaction
      rw [hemp]
      simp only [if_true]
      cases hdc : DoCompaction ops fuel
          { s with numScheduled := (s.numScheduled + 1) % 2 ^ 32,
                   numBg := (s.numBg + 1) % 2 ^ 32 } immbuf with
      | none => simp [hdc]
      | some t => simp [hdc]
    · intro seq t h
      unfold TryScheduleCompaction at h
      rw [hemp] at h
      simp only [if_true] at h
      split at h
      · exact absurd h (by simp)
      · rename_i t1 hdc
        simp only [Option.some.injEq, Prod.mk.injEq] at h
        obtain ⟨h1, h2⟩ := h
        subst h2
        refine ⟨h1.symm, fun hb => ?_⟩
        obtain ⟨g1, g2⟩ := doCompaction_completed_bounds ops fuel _ immbuf _ hdc
          (by simp; omega)
        simp at g1 g2
        omega

/-- Witness for C7 on the concrete instantiation: a non-empty buffer is
submitted to the pool queue, an empty buffer is compacted inline with the
completion counter already advanced on return. -/
theorem C7_inline_iff_empty_witness :
    TryScheduleCompaction kvOps 3 kvNonEmptyBuf 0 =
      some (1, { kvNonEmptyBuf with numScheduled := 1, numBg := 1, pending := [0] }) ∧
    (∀ (seq : Nat) (t : DBState KVBuf),
      TryScheduleCompaction kvOps 3 kvInit 0 = some (seq, t) →
      seq = 1 ∧ 1 ≤ t.numCompleted) := by
  constructor
  · exact (C7_inline_iff_empty kvOps 3 kvNonEmptyBuf 0).1 rfl
  · intro seq t h
    obtain ⟨h1, h2⟩ := ((C7_inline_iff_empty kvOps 3 kvInit 0).2 rfl).2 seq t h
    exact ⟨h1, h2 (by decide)⟩

/-- The forced-flush cycle on the concrete instantiation: from the idle
state with both uint32 counters holding `n mod 2^32`, one `__Flush(false)`
schedules a compaction of the (empty) active memtable, runs it inline,
swaps buffers, and returns OK — leaving the idle state with both wrapped
counters advanced by one. -/
lemma flush_wrapState (n : Nat) :
    Flush kvOps 3 (wrapState n) false = some (Status.ok, wrapState (n + 1)) := by
  have h1 : Flush kvOps 3 (wrapState n) false
      = some (Status.ok,
          { store := fun i => if i = 0 then [] else []
            membuf := 0
            bufs := [1]
            pending := []
            numScheduled := (n % 2 ^ 32 + 1) % 2 ^ 32
            numCompleted := (n % 2 ^ 32 + 1) % 2 ^ 32
            numBg := ((0 + 1) % 2 ^ 32 + (2 ^ 32 - 1)) % 2 ^ 32
            bgStatus := Status.ok
            finished := false }) := rfl
  have hbg : ((0 + 1) % 2 ^ 32 + (2 ^ 32 - 1)) % 2 ^ 32 = 0 := by norm_num
  have hstore : (fun i => if i = (0 : Nat) then ([] : KVBuf) else []) =
      fun _ => ([] : KVBuf) := by
    funext i
    by_cases hi : i = 0 <;> simp [hi]
  have hcnt : (n % 2 ^ 32 + 1) % 2 ^ 32 = (n + 1) % 2 ^ 32 := by omega
  rw [h1, hbg, hstore, hcnt]
  rfl

/-- The concrete state `wrapState 0` is the initial state. -/
lemma wrapState_zero : wrapState 0 = kvInit := rfl

/-- Every `wrapState n` is reachable: `n` forced flushes from the initial
state. -/
lemma wrapState_reachable (n : Nat) :
    Reachable kvOps (fun _ => []) (wrapState n) := by
  induction n with
  | zero =>
    rw [wrapState_zero]
    exact Relation.ReflTransGen.refl
  | succ m ih =>
    exact Relation.ReflTransGen.tail ih
      (Step.flush 3 (wrapState m) false Status.ok (wrapState (m + 1)) (flush_wrapState m))

/-- Counterexample to C5 as stated: the counters are `uint32_t` and wrap.
After `2^32 - 1` forced flushes of an empty memtable the reachable state
holds `num_compac_scheduled_ = num_compac_completed_ = 2^32 - 1`; the next
`__Flush` increments both through the `uint32_t` wrap, so both stored
counters strictly DECREASE (to 0) across that transition — the counters do
not "only ever increase". -/
theorem C5_counterexample :
    Reachable kvOps (fun _ => []) (wrapState (2 ^ 32 - 1)) ∧
    Step kvOps (wrapState (2 ^ 32 - 1)) (wrapState (2 ^ 32 - 1 + 1)) ∧
    (wrapState (2 ^ 32 - 1 + 1)).numScheduled
      < (wrapState (2 ^ 32 - 1)).numScheduled ∧
    (wrapState (2 ^ 32 - 1 + 1)).numCompleted
      < (wrapState (2 ^ 32 - 1)).numCompleted := by
  refine ⟨wrapState_reachable _,
    Step.flush 3 _ false Status.ok _ (flush_wrapState _), ?_, ?_⟩
  · show (2 ^ 32 - 1 + 1) % 2 ^ 32 < (2 ^ 32 - 1) % 2 ^ 32
    omega
  · show (2 ^ 32 - 1 + 1) % 2 ^ 32 < (2 ^ 32 - 1) % 2 ^ 32
    omega

/-- Claim C5 (amended): in every reachable quiescent state of a
partition's `DoubleBuffering`, the stored `uint32_t` counters satisfy
`num_compac_scheduled_ - num_compac_completed_ ∈ {0, 1}` where the
subtraction is the wrapped uint32 difference — at most one compaction is
in flight per partition (`num_bg_compactions_` likewise is 0 or 1).  The
original "both counters only ever increase" holds only for the values
modulo `2^32`: the stored counters wrap at `2^32` (see the
counterexample). -/
theorem C5_at_most_one_inflight {Buf : Type} (ops : BufOps Buf) (store0 : Nat → Buf)
    (s : DBState Buf) (h : Reachable ops store0 s) :
    s.numScheduled < 2 ^ 32 ∧ s.numCompleted < 2 ^ 32 ∧
    s.numBg = s.pending.length ∧ s.pending.length ≤ 1 ∧
    (s.numScheduled + 2 ^ 32 - s.numCompleted) % 2 ^ 32 = s.pending.length := by
  obtain ⟨hc, hsum⟩ := reachable_inv ops store0 s h
  simp only [CountersInv] at hc
  omega

/-- Witness for C5: the initial state of the concrete instantiation is
reachable and satisfies the wrapped-difference bound. -/
theorem C5_at_most_one_inflight_witness :
    kvInit.numScheduled < 2 ^ 32 ∧ kvInit.numCompleted < 2 ^ 32 ∧
    kvInit.numBg = kvInit.pending.length ∧ kvInit.pending.length ≤ 1 ∧
    (kvInit.numScheduled + 2 ^ 32 - kvInit.numCompleted) % 2 ^ 32
      = kvInit.pending.length :=
  C5_at_most_one_inflight kvOps (fun _ => []) kvInit Relation.ReflTransGen.refl

end DoubleBuffering

/-- Claim C10: in the metadata client's permission checks a client with
uid 0 (root) is always granted access — for every non-NULL `Stat`,
`IsReadOk`, `IsWriteOk` and `IsExecOk` return true regardless of the
stat's mode, uid and gid, hence `HasAccess` returns true for every
access mode, and likewise `IsReadDirOk`, `IsWriteDirOk` and `IsLookupOk`
return true for every non-NULL `PathInfo`; each of the six pointer-taking
predicates returns false on a NULL argument, even for root. -/
theorem C10_root_always_granted (c : CLI) (h : c.uid = 0) :
    (∀ s : Stat,
      c.IsReadOk (some s) = true ∧ c.IsWriteOk (some s) = true ∧
      c.IsExecOk (some s) = true) ∧
    (∀ (m : Nat) (s : Stat), c.HasAccess m (some s) = true) ∧
    (∀ info : PathInfo,
      c.IsReadDirOk (some info) = true ∧ c.IsWriteDirOk (some info) = true ∧
      c.IsLookupOk (some info) = true) ∧
    (c.IsReadOk none = false ∧ c.IsWriteOk none = false ∧ c.IsExecOk none = false ∧
     c.IsReadDirOk none = false ∧ c.IsWriteDirOk none = false ∧
     c.IsLookupOk none = false) := by
  refine ⟨fun s => ⟨?_, ?_, ?_⟩, fun m s => ?_, fun info => ⟨?_, ?_, ?_⟩,
    rfl, rfl, rfl, rfl, rfl, rfl⟩
  · simp [CLI.IsReadOk, h]
  · simp [CLI.IsWriteOk, h]
  · simp [CLI.IsExecOk, h]
  · simp [CLI.HasAccess, CLI.IsReadOk, CLI.IsWriteOk, CLI.IsExecOk, h]
  · simp [CLI.IsReadDirOk, h]
  · simp [CLI.IsWriteDirOk, h]
  · simp [CLI.IsLookupOk, h]

lemma bytesLt_nil_right : ∀ c : Bytes, bytesLt c [] = false
  | [] => rfl
  | _ :: _ => rfl

lemma bytesLt_self : ∀ a : Bytes, bytesLt a a = false
  | [] => rfl
  | x :: as => by simp [bytesLt, bytesLt_self as]

lemma bytesLt_asymm : ∀ a b : Bytes, bytesLt a b = true → bytesLt b a = false
  | [], [] => by simp [bytesLt]
  | [], _ :: _ => fun _ => rfl
  | _ :: _, [] => by simp [bytesLt]
  | x :: as, y :: bs => by
    simp only [bytesLt]
    intro h
    by_cases hxy : x < y
    · rw [if_neg (by omega), if_pos (by omega)]
    · rw [if_neg hxy] at h
      by_cases hyx : y < x
      · rw [if_pos hyx] at h
        exact absurd h (by simp)
      · rw [if_neg hyx] at h
        rw [if_neg hyx, if_neg hxy]
        exact bytesLt_asymm as bs h

/-- Transitivity of the bytewise order in its reflexive form:
`a ≤ b` and `b ≤ c` give `a ≤ c`, where `a ≤ b` is `bytesLt b a = false`. -/
lemma bytesLt_le_trans : ∀ a b c : Bytes,
    bytesLt b a = false → bytesLt c b = false → bytesLt c a = false
  | [], _, c, _, _ => bytesLt_nil_right c
  | _ :: _, [], _, h1, _ => by simp [bytesLt] at h1
  | _ :: _, _ :: _, [], _, h2 => by simp [bytesLt] at h2
  | x :: as, y :: bs, z :: cs, h1, h2 => by
    simp only [bytesLt] at h1 h2 ⊢
    by_cases hyx : y < x
    · rw [if_pos hyx] at h1
      exact absurd h1 (by simp)
    · by_cases hzy : z < y
      · rw [if_neg hyx] at h1
        rw [if_pos hzy] at h2
        exact absurd h2 (by simp)
      · rw [if_neg hyx] at h1
        rw [if_neg hzy] at h2
        by_cases hxy : x < y
        · rw [if_neg (by omega), if_pos (by omega)]
        · rw [if_neg hxy] at h1
          by_cases hyz : y < z
          · rw [if_neg (by omega), if_pos (by omega)]
          · rw [if_neg hyz] at h2
            rw [if_neg (by omega), if_neg (by omega)]
            exact bytesLt_le_trans as bs cs h1 h2

namespace WriteBuffer

lemma orderedInsert_perm (e : Bytes × Bytes) :
    ∀ l : List (Bytes × Bytes), (orderedInsert e l).Perm (e :: l)
  | [] => List.Perm.refl _
  | x :: xs => by
    simp only [orderedInsert]
    split
    · exact ((orderedInsert_perm e xs).cons x).trans (List.Perm.swap e x xs)
    · exact List.Perm.refl _

lemma sortEntries_perm : ∀ l : List (Bytes × Bytes), (sortEntries l).Perm l
  | [] => List.Perm.refl _
  | x :: xs => (orderedInsert_perm x (sortEntries xs)).trans ((sortEntries_perm xs).cons x)

lemma filter_orderedInsert_of_ne (e : Bytes × Bytes) (k : Bytes) (hne : (e.1 == k) = false) :
    ∀ l : List (Bytes × Bytes),
      (orderedInsert e l).filter (fun x => x.1 == k) = l.filter (fun x => x.1 == k)
  | [] => by simp [orderedInsert, hne]
  | x :: xs => by
    simp only [orderedInsert]
    split
    · simp [List.filter_cons, filter_orderedInsert_of_ne e k hne xs]
    · simp [List.filter_cons, hne]

lemma filter_orderedInsert_of_eq (e : Bytes × Bytes) (k : Bytes) (heq : (e.1 == k) = true) :
    ∀ l : List (Bytes × Bytes),
      (orderedInsert e l).filter (fun x => x.1 == k) = e :: l.filter (fun x => x.1 == k)
  | [] => by simp [orderedInsert, heq]
  | x :: xs => by
    simp only [orderedInsert]
    split
    · rename_i hlt
      have hek : e.1 = k := by simpa using heq
      have hxk : (x.1 == k) = false := by
        by_contra hx
        have hxe : x.1 = k := by simpa using (Bool.not_eq_false _).mp hx
        rw [hxe, ← hek, bytesLt_self] at hlt
        exact absurd hlt (by simp)
      simp [List.filter_cons, hxk, filter_orderedInsert_of_eq e k heq xs]
    · simp [List.filter_cons, heq]

/-- Stability of the sort: for every key, the subsequence of records with
that key is untouched, so ties are broken by insertion order. -/
lemma filter_sortEntries (k : Bytes) :
    ∀ l : List (Bytes × Bytes),
      (sortEntries l).filter (fun x => x.1 == k) = l.filter (fun x => x.1 == k)
  | [] => rfl
  | x :: xs => by
    simp only [sortEntries]
    by_cases hx : (x.1 == k) = true
    · rw [filter_orderedInsert_of_eq x k hx (sortEntries xs), filter_sortEntries k xs]
      simp [List.filter_cons, hx]
    · rw [filter_orderedInsert_of_ne x k (by simpa using hx) (sortEntries xs),
        filter_sortEntries k xs]
      simp [List.filter_cons, hx]

lemma pairwise_orderedInsert (e : Bytes × Bytes) :
    ∀ l : List (Bytes × Bytes),
      l.Pairwise (fun a b => bytesLt b.1 a.1 = false) →
      (orderedInsert e l).Pairwise (fun a b => bytesLt b.1 a.1 = false)
  | [], _ => by simp [orderedInsert]
  | x :: xs, h => by
    simp only [orderedInsert]
    obtain ⟨hx, hxs⟩ := List.pairwise_cons.mp h
    split
    · rename_i hlt
      refine List.pairwise_cons.mpr ⟨?_, pairwise_orderedInsert e xs hxs⟩
      intro y hy
      rcases List.mem_cons.mp ((orderedInsert_perm e xs).mem_iff.mp hy) with hye | hymem
      · subst hye
        exact bytesLt_asymm _ _ hlt
      · exact hx y hymem
    · rename_i hge
      refine List.pairwise_cons.mpr ⟨?_, h⟩
      intro y hy
      rcases List.mem_cons.mp hy with hyx | hymem
      · subst hyx
        simpa using hge
      · exact bytesLt_le_trans e.1 x.1 y.1 (by simpa using hge) (hx y hymem)

lemma pairwise_sortEntries :
    ∀ l : List (Bytes × Bytes),
      (sortEntries l).Pairwise (fun a b => bytesLt b.1 a.1 = false)
  | [] => List.Pairwise.nil
  | x :: xs => pairwise_orderedInsert x (sortEntries xs) (pairwise_sortEntries xs)

/-- Claim C8: inserting records keyed by the fixed-width encodings of
3, 2, 1, 5, 4 (in that order) and running `FinishAndSort`, the iterator's
`SeekToFirst` lands on the record whose key encodes 1 — the
bytewise-smallest key — and `SeekToLast` on the record whose key encodes
5; in general `FinishAndSort` sorts by bytewise key order (the result is
pairwise nondecreasing) and is stable (for every key the subsequence of
its records, hence the insertion order among ties, is preserved). -/
theorem C8_seek_first_last :
    (((((((WriteBuffer.mk []).add (putFixed64 3) [3]).add (putFixed64 2) [2]).add
        (putFixed64 1) [1]).add (putFixed64 5) [5]).add
        (putFixed64 4) [4]).finishAndSort.seekToFirst = some (putFixed64 1, [1]) ∧
      ((((((WriteBuffer.mk []).add (putFixed64 3) [3]).add (putFixed64 2) [2]).add
        (putFixed64 1) [1]).add (putFixed64 5) [5]).add
        (putFixed64 4) [4]).finishAndSort.seekToLast = some (putFixed64 5, [5])) ∧
    (∀ l : List (Bytes × Bytes),
      (WriteBuffer.sortEntries l).Pairwise (fun a b => bytesLt b.1 a.1 = false)) ∧
    (∀ (l : List (Bytes × Bytes)) (k : Bytes),
      (WriteBuffer.sortEntries l).filter (fun x => x.1 == k) =
        l.filter (fun x => x.1 == k)) :=
  ⟨⟨rfl, rfl⟩, WriteBuffer.pairwise_sortEntries,
    fun l k => WriteBuffer.filter_sortEntries k l⟩

/-- Claim C9: `FinishAndSort` neither drops nor duplicates records — the
entry count is unchanged and the sorted entry list is a permutation of
the buffered one, so the iterator yields exactly the added records. -/
theorem C9_sort_preserves_records (b : WriteBuffer) :
    b.finishAndSort.numEntries = b.numEntries ∧
    b.finishAndSort.entries.Perm b.entries :=
  ⟨(WriteBuffer.sortEntries_perm b.entries).length_eq,
    WriteBuffer.sortEntries_perm b.entries⟩

end WriteBuffer

lemma route_applyOp (d : DirState) (o : WOp) (k : Bytes) :
    (d.applyOp o).route k = d.route k := by
  cases o <;> rfl

lemma length_applyOp (d : DirState) (o : WOp) :
    (d.applyOp o).parts.length = d.parts.length := by
  cases o <;> simp [DirState.applyOp]

/-- An `EpochFlush` moves the open epoch behind the epoch boundary but keeps
every partition's records and their order. -/
lemma partOf_epochFlush (d : DirState) (k : Bytes) :
    ((d.applyOp .epochFlush).partOf k).allRecords = (d.partOf k).allRecords := by
  have hrw : (d.applyOp .epochFlush).partOf k
      = ((d.parts.map fun p => ⟨p.epochs ++ [p.active], []⟩).getD (d.route k)
          (⟨[], []⟩ : Partition)) := rfl
  rw [hrw, List.getD_eq_getElem?_getD, List.getElem?_map]
  unfold DirState.partOf
  rw [List.getD_eq_getElem?_getD]
  cases d.parts[d.route k]? with
  | none => rfl
  | some p => simp [Partition.allRecords]

/-- An `Append(k', v)` extends exactly the routed partition; viewed through
the records of key `k`'s partition it appends the new record (or nothing,
when `k'` routes elsewhere — in which case `k' ≠ k`). -/
lemma partOf_append (d : DirState) (k k' v : Bytes)
    (hlen : d.route k < d.parts.length) :
    ((d.applyOp (.append k' v)).partOf k).allRecords.filter (fun r => r.1 == k)
      = (d.partOf k).allRecords.filter (fun r => r.1 == k) ++
        [(k', v)].filter (fun r => r.1 == k) := by
  have hrw : (d.applyOp (.append k' v)).partOf k
      = ((d.parts.set (d.route k')
          { (d.parts.getD (d.route k') ⟨[], []⟩) with
            active := (d.parts.getD (d.route k') ⟨[], []⟩).active ++ [(k', v)] }).getD
          (d.route k) (⟨[], []⟩ : Partition)) := rfl
  rw [hrw]
  by_cases hroute : d.route k' = d.route k
  · rw [hroute, List.getD_eq_getElem?_getD, List.getElem?_set_self hlen]
    unfold DirState.partOf
    simp [Partition.allRecords, List.filter_append]
  · rw [List.getD_eq_getElem?_getD, List.getElem?_set_ne hroute]
    unfold DirState.partOf
    rw [List.getD_eq_getElem?_getD]
    have hkk : (k' == k) = false := by
      by_contra hx
      have : k' = k := by simpa using (Bool.not_eq_false _).mp hx
      subst this
      exact hroute rfl
    simp [List.filter_cons, hkk]

/-- The writer invariant: after any write sequence, the records of key
`k`'s partition restricted to key `k` are exactly the appends of the
sequence restricted to key `k`, in program order. -/
lemma partOf_runOps (k : Bytes) :
    ∀ (ops : List WOp) (d : DirState), d.route k < d.parts.length →
      ((d.runOps ops).partOf k).allRecords.filter (fun r => r.1 == k)
        = (d.partOf k).allRecords.filter (fun r => r.1 == k) ++
          (kvAppends ops).filter (fun r => r.1 == k)
  | [], d, _ => by simp [DirState.runOps, kvAppends]
  | o :: os, d, hlen => by
    have hlen' : (d.applyOp o).route k < (d.applyOp o).parts.length := by
      rw [route_applyOp, length_applyOp]
      exact hlen
    have h2 := partOf_runOps k os (d.applyOp o) hlen'
    show ((DirState.runOps _ _).partOf k).allRecords.filter _ = _
    rw [show d.runOps (o :: os) = (d.applyOp o).runOps os from rfl, h2]
    cases o with
    | append k' v =>
      rw [partOf_append d k k' v hlen]
      simp only [kvAppends, List.filterMap_cons]
      simp [List.filter_cons]
      by_cases hkk : k' = k <;> simp [hkk]
    | epochFlush =>
      rw [partOf_epochFlush d k]
      simp [kvAppends, List.filterMap_cons]

lemma mem_of_getElem?_partition {l : List Partition} {i : Nat} {p : Partition}
    (h : l[i]? = some p) : p ∈ l := by
  have hi : i < l.length := by
    by_contra hn
    rw [List.getElem?_eq_none (by omega)] at h
    exact absurd h (by simp)
  rw [List.getElem?_eq_getElem hi] at h
  simp at h
  subst h
  exact List.getElem_mem hi

/-- The reverse scan of the reader with `unique_keys=true` — newest epoch
first, last write within an epoch winning — returns exactly the value of
the last record for the key across the flattened epochs. -/
lemma findSome?_reverse_epochs (k : Bytes) (es : List (List (Bytes × Bytes))) :
    es.reverse.findSome? (fun e => epochLookupLast e k)
      = ((es.flatten.filter (fun r => r.1 == k)).getLast?).map (·.2) := by
  induction es using List.reverseRecOn with
  | nil => simp [epochLookupLast]
  | append_singleton es e ih =>
    rw [List.reverse_append]
    simp only [List.reverse_cons, List.reverse_nil, List.nil_append, List.singleton_append]
    cases hfe : epochLookupLast e k with
    | some v =>
      have hne : e.filter (fun r => r.1 == k) ≠ [] := by
        intro hnil
        unfold epochLookupLast at hfe
        rw [hnil] at hfe
        exact absurd hfe (by simp)
      rw [List.findSome?_cons, hfe]
      rw [List.flatten_append]
      simp only [List.flatten_cons, List.flatten_nil, List.append_nil]
      rw [List.filter_append, List.getLast?_append_of_ne_nil _ hne]
      unfold epochLookupLast at hfe
      exact hfe.symm
    | none =>
      have hnil : e.filter (fun r => r.1 == k) = [] := by
        unfold epochLookupLast at hfe
        simp only [Option.map_eq_none'] at hfe
        exact List.getLast?_eq_none_iff.mp hfe
      rw [List.findSome?_cons, hfe]
      rw [List.flatten_append]
      simp only [List.flatten_cons, List.flatten_nil, List.append_nil]
      rw [List.filter_append, hnil, List.append_nil]
      exact ih

lemma readAll_eq_partOf (d : DirState) (u : Bool) (k : Bytes) :
    d.readAll u k = readAllPart u (d.partOf k) k := rfl

/-- The `unique_keys=true` reader on a fully flushed partition returns
the value of the last record for the key, or empty on a miss. -/
lemma readAllPart_unique_eq (p : Partition) (k : Bytes) (hact : p.active = []) :
    readAllPart true p k
      = (((p.allRecords.filter (fun r => r.1 == k)).getLast?).map (·.2)).getD [] := by
  unfold readAllPart Partition.allRecords
  rw [hact, List.append_nil]
  rw [if_pos rfl, findSome?_reverse_epochs]
  cases ((p.epochs.flatten.filter fun r => r.1 == k).getLast?).map (·.2) <;> rfl

/-- The `unique_keys=false` reader on a fully flushed partition returns
the concatenation of the values of the key's records in insertion
order. -/
lemma readAllPart_multi_eq (p : Partition) (k : Bytes) (hact : p.active = []) :
    readAllPart false p k
      = ((p.allRecords.filter (fun r => r.1 == k)).map (·.2)).flatten := by
  unfold readAllPart Partition.allRecords
  rw [hact, List.append_nil]
  simp

lemma finish_partOf_allRecords (d : DirState) (k : Bytes) :
    ((d.finish).partOf k).allRecords = (d.partOf k).allRecords := by
  unfold DirState.finish
  split
  · exact partOf_epochFlush d k
  · rfl

/-- After `Finish`, every partition's open epoch is empty: either the
final `EpochFlush` closed it, or nothing had been appended since the
last flush. -/
lemma finish_active (d : DirState) (k : Bytes) :
    ((d.finish).partOf k).active = [] := by
  unfold DirState.finish
  split
  · have hrw : (d.applyOp .epochFlush).partOf k
        = ((d.parts.map fun p => ⟨p.epochs ++ [p.active], []⟩).getD (d.route k)
            (⟨[], []⟩ : Partition)) := rfl
    rw [hrw, List.getD_eq_getElem?_getD, List.getElem?_map]
    cases d.parts[d.route k]? <;> rfl
  · rename_i hall
    unfold DirState.partOf
    rw [List.getD_eq_getElem?_getD]
    cases hp : d.parts[d.route k]? with
    | none => rfl
    | some p =>
      have hmem : p ∈ d.parts := mem_of_getElem?_partition hp
      have hfalse : (d.parts.any fun p => !p.active.isEmpty) = false := by
        simpa using hall
      rw [List.any_eq_false] at hfalse
      have := hfalse p hmem
      simp only [Option.getD_some]
      have hempty : p.active.isEmpty = true := by simpa using this
      exact List.isEmpty_iff.mp hempty

/-- The per-key write history as values is the value projection of the
per-key record history. -/
lemma writesOf_eq (ops : List WOp) (k : Bytes) :
    writesOf ops k = ((kvAppends ops).filter (fun r => r.1 == k)).map (·.2) := by
  induction ops with
  | nil => rfl
  | cons o os ih =>
    cases o with
    | epochFlush => simpa [writesOf, kvAppends, List.filterMap_cons] using ih
    | append k' v =>
      by_cases hkk : (k' == k) = true
      · have hk2 : k' = k := by simpa using hkk
        simpa [writesOf, kvAppends, List.filterMap_cons, List.filter_cons, hk2] using ih
      · have hk2 : ¬ k' = k := by simpa using hkk
        simpa [writesOf, kvAppends, List.filterMap_cons, List.filter_cons, hk2] using ih

lemma init_route_lt (lg : Nat) (hash : Bytes → Nat) (k : Bytes) :
    (DirState.init lg hash).route k < (DirState.init lg hash).parts.length := by
  show hash k % 2 ^ lg < (List.replicate (2 ^ lg) (⟨[], []⟩ : Partition)).length
  rw [List.length_replicate]
  exact Nat.mod_lt _ (pow_pos (by norm_num) lg)

lemma init_partOf (lg : Nat) (hash : Bytes → Nat) (k : Bytes) :
    (DirState.init lg hash).partOf k = ⟨[], []⟩ := by
  unfold DirState.partOf DirState.init
  rw [List.getD_eq_getElem?_getD, List.getElem?_replicate]
  split <;> rfl

/-- Claim C1: for every write sequence ending in `Finish` and every key
`k` inserted at least once, `ReadAll(k)` returns the last value written
for `k` when `unique_keys=true`, and the concatenation, in insertion
order across epochs, of all values written for `k` when
`unique_keys=false`. -/
theorem C1_readall_roundtrip (lg : Nat) (hash : Bytes → Nat) (ops : List WOp) (k : Bytes)
    (hk : writesOf ops k ≠ []) :
    (((DirState.init lg hash).runOps ops).finish).readAll true k
      = (writesOf ops k).getLast hk ∧
    (((DirState.init lg hash).runOps ops).finish).readAll false k
      = (writesOf ops k).flatten := by
  have hrun := partOf_runOps k ops (DirState.init lg hash) (init_route_lt lg hash k)
  rw [init_partOf] at hrun
  simp only [Partition.allRecords, List.flatten_nil, List.append_nil, List.filter_nil,
    List.nil_append] at hrun
  have hfin : ((((DirState.init lg hash).runOps ops).finish).partOf k).allRecords.filter
      (fun r => r.1 == k) = (kvAppends ops).filter (fun r => r.1 == k) := by
    rw [finish_partOf_allRecords]
    exact hrun
  have hact := finish_active ((DirState.init lg hash).runOps ops) k
  have hw := writesOf_eq ops k
  constructor
  · rw [readAll_eq_partOf, readAllPart_unique_eq _ k hact, hfin]
    have h1 : (writesOf ops k).getLast? = some ((writesOf ops k).getLast hk) :=
      List.getLast?_eq_getLast _ hk
    have h2 : (writesOf ops k).getLast?
        = (((kvAppends ops).filter (fun r => r.1 == k)).getLast?).map (·.2) := by
      rw [hw]
      exact List.getLast?_map _ _
    rw [← h2, h1]
    rfl
  · rw [readAll_eq_partOf, readAllPart_multi_eq _ k hact, hfin, ← hw]

/-- Witness for C1: one partition, a duplicated key across two epochs —
`unique_keys=true` reads the last value, `unique_keys=false` the
concatenation. -/
theorem C1_readall_roundtrip_witness :
    (((DirState.init 0 (fun _ => 0)).runOps
        [.append [1] [7], .epochFlush, .append [1] [8]]).finish).readAll true [1] = [8] ∧
    (((DirState.init 0 (fun _ => 0)).runOps
        [.append [1] [7], .epochFlush, .append [1] [8]]).finish).readAll false [1]
      = [7, 8] := by
  have h := C1_readall_roundtrip 0 (fun _ => 0)
    [.append [1] [7], .epochFlush, .append [1] [8]] [1] (by decide)
  exact ⟨h.1.trans (by decide), h.2.trans (by decide)⟩

/-- Claim C6: for every write sequence ending in `Finish` and every key
`k` never inserted — in particular in a directory holding only empty
epochs — `ReadAll(k)` returns the empty byte string in both read
modes. -/
theorem C6_readall_missing (lg : Nat) (hash : Bytes → Nat) (ops : List WOp) (k : Bytes)
    (hk : writesOf ops k = []) :
    (((DirState.init lg hash).runOps ops).finish).readAll true k = [] ∧
    (((DirState.init lg hash).runOps ops).finish).readAll false k = [] := by
  have hrun := partOf_runOps k ops (DirState.init lg hash) (init_route_lt lg hash k)
  rw [init_partOf] at hrun
  simp only [Partition.allRecords, List.flatten_nil, List.append_nil, List.filter_nil,
    List.nil_append] at hrun
  have hw := writesOf_eq ops k
  have hF : (kvAppends ops).filter (fun r => r.1 == k) = [] := by
    rw [hk] at hw
    exact (List.map_eq_nil_iff.mp hw.symm)
  have hfin : ((((DirState.init lg hash).runOps ops).finish).partOf k).allRecords.filter
      (fun r => r.1 == k) = [] := by
    rw [finish_partOf_allRecords]
    exact hrun.trans hF
  have hact := finish_active ((DirState.init lg hash).runOps ops) k
  constructor
  · rw [readAll_eq_partOf, readAllPart_unique_eq _ k hact, hfin]
    rfl
  · rw [readAll_eq_partOf, readAllPart_multi_eq _ k hact, hfin]
    rfl

/-- Witness for C6: a directory of two empty epochs read at a key never
inserted. -/
theorem C6_readall_missing_witness :
    (((DirState.init 0 (fun _ => 0)).runOps [.epochFlush, .epochFlush]).finish).readAll
      true [9] = [] ∧
    (((DirState.init 0 (fun _ => 0)).runOps [.epochFlush, .epochFlush]).finish).readAll
      false [9] = [] :=
  C6_readall_missing 0 (fun _ => 0) [.epochFlush, .epochFlush] [9] rfl

/-- Witness for C10 at a concrete root client, stat and path info. -/
theorem C10_root_always_granted_witness :
    CLI.IsReadOk ⟨0, 7⟩ (some ⟨0, 42, 42⟩) = true ∧
    CLI.IsWriteOk ⟨0, 7⟩ (some ⟨0, 42, 42⟩) = true ∧
    CLI.IsExecOk ⟨0, 7⟩ (some ⟨0, 42, 42⟩) = true ∧
    CLI.HasAccess ⟨0, 7⟩ 7 (some ⟨0, 42, 42⟩) = true ∧
    CLI.IsReadDirOk ⟨0, 7⟩ (some ⟨0, 42, 42⟩) = true ∧
    CLI.IsWriteDirOk ⟨0, 7⟩ (some ⟨0, 42, 42⟩) = true ∧
    CLI.IsLookupOk ⟨0, 7⟩ (some ⟨0, 42, 42⟩) = true ∧
    CLI.IsReadOk ⟨0, 7⟩ none = false ∧
    CLI.IsReadDirOk ⟨0, 7⟩ none = false := by
  have h := C10_root_always_granted ⟨0, 7⟩ rfl
  obtain ⟨hstat, hacc, hdir, hnull⟩ := h
  obtain ⟨h1, h2, h3⟩ := hstat ⟨0, 42, 42⟩
  obtain ⟨h4, h5, h6⟩ := hdir ⟨0, 42, 42⟩
  exact ⟨h1, h2, h3, hacc 7 ⟨0, 42, 42⟩, h4, h5, h6, hnull.1, hnull.2.2.2.1⟩

end DeltafsProof
